import Mathlib

/-!
Verification of the Monte-Carlo-Tree-Search tic-tac-toe repository
(`mcts_lists.py`, `mcts_mutable.py`, `gamestate_test.py`).

The board is two 9-bit occupancy fields (one per player) plus a boolean
`player` recording who put down the last move.  Moves are single-bit masks.
All definitions below are shallow embeddings of the Python source; machine
integers are modelled as `Nat` (the Python ints are arbitrary precision,
and all board values stay below 2^9), fractional counters as `ℚ`.
-/

namespace MCTS

/-- The 8 winning line-masks, `WIN_STATE` in both engine files. -/
def WIN_STATE : List ℕ :=
  [0b111000000, 0b000111000, 0b000000111, 0b100100100,
   0b010010010, 0b001001001, 0b001010100, 0b100010001]

/-- The 9 single-bit cell masks, `POSSIBLE_MOVES` in both engine files. -/
def POSSIBLE_MOVES : List ℕ :=
  [0b100000000, 0b010000000, 0b001000000, 0b000100000,
   0b000010000, 0b000001000, 0b000000100, 0b000000010, 0b000000001]

/-- `WIN_STATE_MOVE`: the dict mapping each of the 9 cell masks to the win
lines through that cell.  Subscripting with any other value is a Python
`KeyError`, modelled as `none`. -/
def WIN_STATE_MOVE (bit_location : ℕ) : Option (List ℕ) :=
  if bit_location = 0b100000000 then
    some [0b111000000, 0b100100100, 0b100010001]
  else if bit_location = 0b010000000 then some [0b111000000, 0b010010010]
  else if bit_location = 0b001000000 then
    some [0b111000000, 0b001001001, 0b001010100]
  else if bit_location = 0b000100000 then some [0b000111000, 0b100100100]
  else if bit_location = 0b000010000 then
    some [0b000111000, 0b010010010, 0b100010001, 0b001010100]
  else if bit_location = 0b000001000 then some [0b000111000, 0b001001001]
  else if bit_location = 0b000000100 then
    some [0b000000111, 0b100100100, 0b001010100]
  else if bit_location = 0b000000010 then some [0b000000111, 0b010010010]
  else if bit_location = 0b000000001 then
    some [0b000000111, 0b001001001, 0b100010001]
  else none

/-- `GameState` of `mcts_lists.py`: `player` is the player who put down the
last move (Python `False`/`True`), `board` the pair of occupancy fields
(`board[0]`, `board[1]`).  `mcts_mutable.py` stores the same two fields in a
list instead of a tuple; the state space is identical. -/
structure GameState where
  player : Bool
  board : ℕ × ℕ
  deriving DecidableEq, Repr

/-- Python `board[p]` where the index is a boolean. -/
def boardGet (b : ℕ × ℕ) (p : Bool) : ℕ := if p then b.2 else b.1

/-- `GameState.is_won` (`mcts_lists.py` lines 101-108): some win mask is
fully contained in either player's occupancy. -/
def GameState.is_won (s : GameState) : Bool :=
  WIN_STATE.any fun state =>
    (s.board.1 &&& state == state) || (s.board.2 &&& state == state)

/-- `GameState._get_available` (`mcts_lists.py` line 110-112,
`get_available` in `mcts_mutable.py`): bits claimed by neither player. -/
def GameState.get_available (s : GameState) : ℕ :=
  (s.board.1 ||| s.board.2) ^^^ 0b111111111

/-- `GameState.get_available_moves` (both engines): the single-bit masks
contained in the available bits, in `POSSIBLE_MOVES` order. -/
def GameState.get_available_moves (s : GameState) : List ℕ :=
  POSSIBLE_MOVES.filter fun move => move &&& s.get_available == move

/-- `GameState.is_terminated` (`mcts_lists.py` lines 123-125). -/
def GameState.is_terminated (s : GameState) : Bool :=
  s.is_won || s.get_available == 0

/-- `GameState.move` of `mcts_lists.py` (lines 127-135): builds the successor
state dict `{'player': not player, 'board': new_board}` where the bit is
or-ed into `board[not player]` (the mover's field) and the other field is
copied.  No availability check is performed and no exception can be raised. -/
def GameState.move (s : GameState) (bit_location : ℕ) : GameState :=
  if s.player then
    { player := !s.player, board := (s.board.1 ||| bit_location, s.board.2) }
  else
    { player := !s.player, board := (s.board.1, s.board.2 ||| bit_location) }

/-- Python exceptions observable in the modelled code paths. -/
inductive PyError where
  | valueError
  | indexError
  | keyError
  deriving DecidableEq, Repr

/-- `GameState._won` of `mcts_mutable.py` (lines 98-103): checks the win
lines through the last move against the last mover's occupancy.  The first
thing it does is the subscript `WIN_STATE_MOVE[bit_location]`, so a move
that is not one of the 9 cell masks raises `KeyError`. -/
def GameState.won_move (s : GameState) (bit_location : ℕ) :
    Except PyError Bool :=
  match WIN_STATE_MOVE bit_location with
  | none => Except.error PyError.keyError
  | some masks =>
      Except.ok (masks.any fun state =>
        boardGet s.board s.player &&& state == state)

/-- `GameState.move` of `mcts_mutable.py` (lines 118-125): flips `player`,
or-s the bit into the new `player`'s field, and returns the updated state
together with the terminal flag `_won(bit) or get_available() == 0`.
There is no availability check: an occupied cell is silently accepted, and
for a move outside the 9 cell masks the `_won` lookup raises `KeyError` —
after the state has already been mutated (the returned state carries the
mutation even on the error path). -/
def GameState.mmove (s : GameState) (bit_location : ℕ) :
    GameState × Except PyError Bool :=
  let p := !s.player
  let b := if p then (s.board.1, s.board.2 ||| bit_location)
           else (s.board.1 ||| bit_location, s.board.2)
  let s' : GameState := { player := p, board := b }
  (s', (s'.won_move bit_location).map fun w => w || s'.get_available == 0)

/-- `GameSimulator.move` of `mcts_lists.py` (lines 151-155): or-s the bit
into `board[not player]`, flips `player`, and returns `is_terminated()`. -/
def GameState.sim_move (s : GameState) (bit_location : ℕ) : GameState × Bool :=
  let b := if !s.player then (s.board.1, s.board.2 ||| bit_location)
           else (s.board.1 ||| bit_location, s.board.2)
  let s' : GameState := { player := !s.player, board := b }
  (s', s'.is_terminated)

/-- `GameSimulator.play_out` of `mcts_lists.py` (lines 162-171) together with
`_simulate_move` (157-160).  `random.choice` is modelled by a `pick` policy
giving an index into the available-moves list (reduced mod its length so any
element is selectable); on an empty list `random.choice` raises `IndexError`.
The `while` loop is unrolled on explicit fuel: `none` means the fuel ran out
before the loop terminated. -/
def play_out_iter (pick : List ℕ → ℕ) : ℕ → GameState → Option (Except PyError (Option Bool))
  | 0, _ => none
  | fuel+1, s =>
    match s.get_available_moves with
    | [] => some (Except.error PyError.indexError)
    | m :: rest =>
      let chosen := (m :: rest).getD (pick (m :: rest) % (m :: rest).length) 0
      let stepped := s.sim_move chosen
      if stepped.2 then
        some (Except.ok (if stepped.1.is_won then some stepped.1.player else none))
      else play_out_iter pick fuel stepped.1

/-- The simulation `while` loop inside `Node.simulate` of `mcts_mutable.py`
(lines 188-195): breaks on an empty available-moves list before choosing,
otherwise applies a random move until the move reports a terminal state.
Returns the final simulation state; an uncaught exception from `sim.move`
propagates out of the loop, and `none` means the fuel ran out. -/
def sim_loop (pick : List ℕ → ℕ) :
    ℕ → GameState → Option (Except PyError GameState)
  | 0, _ => none
  | fuel+1, s =>
    match s.get_available_moves with
    | [] => some (Except.ok s)
    | m :: rest =>
      let chosen := (m :: rest).getD (pick (m :: rest) % (m :: rest).length) 0
      let stepped := s.mmove chosen
      match stepped.2 with
      | Except.error e => some (Except.error e)
      | Except.ok term =>
          if term then some (Except.ok stepped.1)
          else sim_loop pick fuel stepped.1

/-- The outcome computation of `Node.simulate` in `mcts_mutable.py`
(lines 197-200): `result = sim.get_player() if sim.get_available() else None`
— a win is reported only when empty cells remain; a full board is reported
as a draw (`none`) whether or not it contains a completed line. -/
def simulate_outcome (pick : List ℕ → ℕ) (fuel : ℕ) (s : GameState) :
    Option (Except PyError (Option Bool)) :=
  (sim_loop pick fuel s).map fun r =>
    r.map fun final =>
      if final.get_available != 0 then some final.player else none

/-- The mutable fields of a search `Node` (both engines): its `GameState`,
the visit and win counters (rationals, because `calc_uct` can overwrite
`visits` with the float `0.001`), the remaining untried moves, the move that
created the node, and the cached `uct` score (`mcts_lists.py` only; the
mutable engine has no such field and the claims never read it there). -/
structure NRec where
  gamestate : GameState
  visits : ℚ
  wins : ℚ
  possible_moves : List ℕ
  played_move : Option ℕ
  uct : ℚ
  deriving DecidableEq, Repr

/-- The per-node effect of `Node.backprop` (identical lines in both engines:
`mcts_lists.py` 247-253, `mcts_mutable.py` 203-209): `visits += 1`, and
`wins += 1` iff `result == self.gamestate.get_player()`.  A draw is Python
`None`, modelled as `none`, which compares unequal to either player. -/
def backprop_step (result : Option Bool) (n : NRec) : NRec :=
  { n with
    visits := n.visits + 1,
    wins := if result = some n.gamestate.player then n.wins + 1 else n.wins }

/-- `Node.backprop` along the parent chain: the head of the list is the node
the call starts at, the tail its ancestors up to the root (the recursion
`if self.parent: self.parent.backprop(result)` walks exactly this chain;
nodes outside the chain are untouched by the source code). -/
def backprop_chain (result : Option Bool) : List NRec → List NRec
  | [] => []
  | n :: ancestors => backprop_step result n :: backprop_chain result ancestors

/-- `Node.calc_uct` (`mcts_lists.py` 255-260, `mcts_mutable.py` 211-216):
if `visits == 0` it overwrites `self.visits` with `0.001`, then computes
`wins/visits + constant * sqrt(log(parent.visits)/visits)`.  `math.log`
raises `ValueError` when `parent.visits <= 0` and `math.sqrt` raises
`ValueError` when `log(parent.visits) < 0`, i.e. when `0 < parent.visits
< 1`; with the non-negative visit counters the program maintains, the call
raises exactly when `parent.visits < 1` (the assignment to `self.visits`
has already happened when the exception is thrown).  The transcendental
factor `sqrt(log(parentVisits)/visits)` is kept abstract as a `bonus`
function of the two counters; every claim either constrains it to be
multiplied by `constant = 0` or never reads the score. -/
def calc_uct (constant : ℚ) (bonus : ℚ → ℚ → ℚ) (parent_visits : ℚ)
    (n : NRec) : NRec × Option PyError :=
  let n1 := if n.visits = 0 then { n with visits := 1/1000 } else n
  if parent_visits < 1 then (n1, some PyError.valueError)
  else
    ({ n1 with
        uct := n1.wins / n1.visits + constant * bonus parent_visits n1.visits },
     none)

/-- Python's `max`: keep the first element, replacing the current maximum
only on a strictly greater key, so the first element attaining the maximum
is returned.  `max` of an empty iterable raises; modelled as `none`. -/
def pyfold {α : Type} (key : α → ℚ) : α → List α → α
  | cur, [] => cur
  | cur, y :: ys => pyfold key (if key cur < key y then y else cur) ys

/-- Python `max(iterable)` / `max(iterable, key=...)`. -/
def pymax {α : Type} (key : α → ℚ) : List α → Option α
  | [] => none
  | x :: xs => some (pyfold key x xs)

/-- The child selected by `MonteCarloTreeSearch.choose_best` of
`mcts_lists.py` (lines 297-302): every child's `calc_uct(0)` is run (with
the root as parent), then `max(self.root.children)` compares the cached
`uct` fields via `Node.__lt__`. -/
def choose_best_selected (bonus : ℚ → ℚ → ℚ) (root_visits : ℚ)
    (children : List NRec) : Option NRec :=
  pymax NRec.uct (children.map fun c => (calc_uct 0 bonus root_visits c).1)

/-- `Node.calc_best` of `mcts_mutable.py` (lines 218-220): the raw win rate
`wins / visits`, with no zero guard (a zero-visit child would raise
`ZeroDivisionError`; the claims only use it with `visits >= 1`). -/
def calc_best (n : NRec) : ℚ := n.wins / n.visits

/-- `Node.best_child` of `mcts_mutable.py` (lines 222-224):
`max(self.children, key=lambda child: child.calc_best())`. -/
def best_child (children : List NRec) : Option NRec := pymax calc_best children

/-- Forget the cached `uct` score (the only field `calc_uct(0)` may change
on an already-visited node), for comparing selected children across the two
engines. -/
def eraseUct (n : NRec) : NRec := { n with uct := 0 }

/-- A search-tree node with its parent back-reference modelled explicitly:
`hasParent` records whether `self.parent` is set (`True`) or `None`
(`False`); children are owned subtrees. -/
inductive PNode where
  | mk (hasParent : Bool) (visits : ℚ) (wins : ℚ)
       (possible_moves : List ℕ) (played_move : Option ℕ)
       (children : List PNode)

def PNode.hasParent : PNode → Bool | .mk hp _ _ _ _ _ => hp

def PNode.visits : PNode → ℚ | .mk _ v _ _ _ _ => v

def PNode.wins : PNode → ℚ | .mk _ _ w _ _ _ => w

def PNode.possible_moves : PNode → List ℕ | .mk _ _ _ pm _ _ => pm

def PNode.played_move : PNode → Option ℕ | .mk _ _ _ _ pl _ => pl

def PNode.children : PNode → List PNode | .mk _ _ _ _ _ ch => ch

/-- The effect of `self.root.parent = None` on the new root node. -/
def PNode.clearParent : PNode → PNode
  | .mk _ v w pm pl ch => .mk false v w pm pl ch

/-- `MonteCarloTreeSearch` of `mcts_lists.py` (lines 263-272). -/
structure SearchTree where
  root : PNode
  constant : ℚ
  calc_time : ℚ
  first_move : Bool
  iterations : ℚ

/-- `MonteCarloTreeSearch.swap_root` (`mcts_lists.py` lines 274-278):
`self.iterations = self.root.visits` (the old root), `self.root =
next_node`, `self.root.parent = None`. -/
def swap_root (t : SearchTree) (next_node : PNode) : SearchTree :=
  { t with iterations := t.root.visits, root := next_node.clearParent }

/-- Python values appearing in the `CONVERT_MOVE` dict (strings, ints and
`None`). -/
inductive PyVal where
  | str (v : String)
  | intv (v : ℕ)
  | nonev
  deriving DecidableEq, Repr

/-- The `CONVERT_MOVE` dict (identical in both engine files, lines 9-29),
as its ordered key/value pairs.  Note the string `'-1 -1'` maps to `None`
but there is no key `None` mapping back. -/
def CONVERT_MOVE : List (PyVal × PyVal) :=
  [(.str "0 0", .intv 0b100000000),
   (.str "1 0", .intv 0b010000000),
   (.str "2 0", .intv 0b001000000),
   (.str "0 1", .intv 0b000100000),
   (.str "1 1", .intv 0b000010000),
   (.str "2 1", .intv 0b000001000),
   (.str "0 2", .intv 0b000000100),
   (.str "1 2", .intv 0b000000010),
   (.str "2 2", .intv 0b000000001),
   (.str "-1 -1", .nonev),
   (.intv 0b100000000, .str "0 0"),
   (.intv 0b010000000, .str "1 0"),
   (.intv 0b001000000, .str "2 0"),
   (.intv 0b000100000, .str "0 1"),
   (.intv 0b000010000, .str "1 1"),
   (.intv 0b000001000, .str "2 1"),
   (.intv 0b000000100, .str "0 2"),
   (.intv 0b000000010, .str "1 2"),
   (.intv 0b000000001, .str "2 2")]

/-- Python dict subscript `CONVERT_MOVE[k]`: `none` models a `KeyError`. -/
def dict_get (k : PyVal) : Option PyVal :=
  (CONVERT_MOVE.find? fun e => e.1 == k).map Prod.snd

/-! ## Helper lemmas -/

/-- The two engines' move functions perform the same state transformation. -/
theorem mmove_fst_eq_move (s : GameState) (m : ℕ) :
    (s.mmove m).1 = s.move m := by
  cases s with
  | mk p b =>
    cases p <;> simp [GameState.mmove, GameState.move]

/-- The lists simulator's in-place move is the same state transformation. -/
theorem sim_move_fst_eq_move (s : GameState) (m : ℕ) :
    (s.sim_move m).1 = s.move m := by
  cases s with
  | mk p b =>
    cases p <;> simp [GameState.sim_move, GameState.move]

theorem testBit_nine_mask {k : ℕ} (hk : k < 9) : Nat.testBit 511 k = true := by
  have h : (511 : ℕ) = 2 ^ 9 - 1 := by norm_num
  rw [h, Nat.testBit_two_pow_sub_one]
  simpa using hk

theorem avail_testBit (s : GameState) {k : ℕ} (hk : k < 9) :
    s.get_available.testBit k
      = !(s.board.1.testBit k || s.board.2.testBit k) := by
  show ((s.board.1 ||| s.board.2) ^^^ 511).testBit k = _
  rw [Nat.testBit_xor, Nat.testBit_or, testBit_nine_mask hk]
  cases s.board.1.testBit k <;> cases s.board.2.testBit k <;> rfl

theorem pow_land_eq_self {k x : ℕ} :
    2 ^ k &&& x = 2 ^ k ↔ x.testBit k = true := by
  constructor
  · intro h
    have h2 := congrArg (fun y => y.testBit k) h
    simpa [Nat.testBit_and, Nat.testBit_two_pow] using h2
  · intro h
    apply Nat.eq_of_testBit_eq
    intro i
    rw [Nat.testBit_and, Nat.testBit_two_pow]
    by_cases hik : k = i
    · subst hik
      simp [h]
    · simp [hik]

theorem pow_land_beq {k x : ℕ} :
    (2 ^ k &&& x == 2 ^ k) = x.testBit k := by
  cases hx : x.testBit k
  · have hne : ¬(2 ^ k &&& x = 2 ^ k) := fun hc => by
      have := pow_land_eq_self.1 hc
      rw [hx] at this
      exact Bool.false_ne_true this
    simpa using hne
  · simpa using pow_land_eq_self.2 hx

theorem land_eq_zero_iff {x y : ℕ} :
    x &&& y = 0 ↔ ∀ i, ¬(x.testBit i = true ∧ y.testBit i = true) := by
  constructor
  · intro h i hi
    have h2 := congrArg (fun z => z.testBit i) h
    simp [Nat.testBit_and, Nat.zero_testBit, hi.1, hi.2] at h2
  · intro h
    apply Nat.eq_of_testBit_eq
    intro i
    rw [Nat.testBit_and, Nat.zero_testBit]
    cases hx : x.testBit i
    · rfl
    · cases hy : y.testBit i
      · rfl
      · exact absurd ⟨hx, hy⟩ (h i)

theorem mem_available_moves {s : GameState} {m : ℕ} :
    m ∈ s.get_available_moves ↔
      m ∈ POSSIBLE_MOVES ∧ m &&& s.get_available = m := by
  unfold GameState.get_available_moves
  simp [List.mem_filter]

theorem possible_moves_shape :
    ∀ m ∈ POSSIBLE_MOVES, ∃ k, k < 9 ∧ m = 2 ^ k := by
  intro m hm
  fin_cases hm
  · exact ⟨8, by norm_num, by norm_num⟩
  · exact ⟨7, by norm_num, by norm_num⟩
  · exact ⟨6, by norm_num, by norm_num⟩
  · exact ⟨5, by norm_num, by norm_num⟩
  · exact ⟨4, by norm_num, by norm_num⟩
  · exact ⟨3, by norm_num, by norm_num⟩
  · exact ⟨2, by norm_num, by norm_num⟩
  · exact ⟨1, by norm_num, by norm_num⟩
  · exact ⟨0, by norm_num, by norm_num⟩

theorem two_pow_mem_possible {k : ℕ} (hk : k < 9) :
    2 ^ k ∈ POSSIBLE_MOVES := by
  interval_cases k <;> decide

theorem mem_available_moves_iff {s : GameState} {k : ℕ} (hk : k < 9) :
    2 ^ k ∈ s.get_available_moves ↔
      s.board.1.testBit k = false ∧ s.board.2.testBit k = false := by
  rw [mem_available_moves]
  constructor
  · rintro ⟨-, hland⟩
    have htb := pow_land_eq_self.1 hland
    rw [avail_testBit s hk] at htb
    constructor
    · cases h1 : s.board.1.testBit k
      · rfl
      · rw [h1] at htb
        simp at htb
    · cases h2 : s.board.2.testBit k
      · rfl
      · rw [h2] at htb
        simp at htb
  · rintro ⟨h1, h2⟩
    refine ⟨two_pow_mem_possible hk, pow_land_eq_self.2 ?_⟩
    rw [avail_testBit s hk, h1, h2]
    rfl

theorem move_fields (s : GameState) (m : ℕ) :
    boardGet (s.move m).board (!s.player)
        = boardGet s.board (!s.player) ||| m ∧
    boardGet (s.move m).board s.player = boardGet s.board s.player ∧
    (s.move m).player = !s.player := by
  cases hp : s.player <;> simp [GameState.move, boardGet, hp]

/-! ## Claim theorems -/

/-- C1: on the board `(0b100001110, 0b011010001)` with `player = True`
(exactly the repository's own `test_is_won_player_0` input), the single
remaining legal move `0b000100000` completes the line `0b100100100` for
player `False` and fills the board.  The mutable engine's simulate loop
reaches that winning terminal position but reports a draw (`none`), because
`Node.simulate` decides the outcome by `if sim.get_available()` — empty
cells left — instead of a win check; the lists engine's `play_out` returns
the win for player `False` on the same position, as the claim requires. -/
theorem mutable_simulate_draws_on_winning_final_move :
    simulate_outcome (fun _ => 0) 9 ⟨true, (0b100001110, 0b011010001)⟩
        = some (Except.ok none) ∧
    sim_loop (fun _ => 0) 9 ⟨true, (0b100001110, 0b011010001)⟩
        = some (Except.ok ⟨false, (0b100101110, 0b011010001)⟩) ∧
    GameState.is_won ⟨false, (0b100101110, 0b011010001)⟩ = true ∧
    play_out_iter (fun _ => 0) 9 ⟨true, (0b100001110, 0b011010001)⟩
        = some (Except.ok (some false)) := by
  refine ⟨by rfl, by rfl, by decide, by rfl⟩

/-- C2 (counterexample): calling `calc_uct` on a node with `visits == 0`
whose parent also has `visits == 0` does not return a number — `math.log(0)`
raises `ValueError`, because the epsilon substitution is applied only to the
node's own visit count, never to the parent's. -/
theorem calc_uct_zero_parent_raises :
    (calc_uct (4/5) (fun _ _ => 0) 0
        ⟨⟨false, (0, 0)⟩, 0, 0, [], none, 0⟩).2
      = some PyError.valueError := by
  decide

/-- C2 (amended): `calc_uct` substitutes the epsilon `0.001` only for the
node's own zero visit count, so the divisions are safe (the divisor is
positive); no substitution guards the parent's count, and the call succeeds
exactly when the parent has been visited (`parent.visits >= 1`), in which
case it returns normally. -/
theorem calc_uct_safe_when_parent_visited (c : ℚ) (bonus : ℚ → ℚ → ℚ)
    (pv : ℚ) (n : NRec) (h0 : 0 ≤ n.visits) (h1 : 1 ≤ pv) :
    (calc_uct c bonus pv n).2 = none ∧
    0 < (calc_uct c bonus pv n).1.visits := by
  have hpv : ¬(pv < 1) := not_lt.mpr h1
  unfold calc_uct
  by_cases hv : n.visits = 0
  · simp only [hv, if_pos rfl, if_neg hpv]
    exact ⟨trivial, by norm_num⟩
  · simp only [if_neg hv, if_neg hpv]
    exact ⟨trivial, lt_of_le_of_ne h0 (Ne.symm hv)⟩

theorem calc_uct_safe_when_parent_visited_witness :
    (calc_uct 0 (fun _ _ => 0) 1 ⟨⟨false, (0, 0)⟩, 0, 0, [], none, 0⟩).2
        = none ∧
    0 < (calc_uct 0 (fun _ _ => 0) 1
        ⟨⟨false, (0, 0)⟩, 0, 0, [], none, 0⟩).1.visits :=
  calc_uct_safe_when_parent_visited 0 (fun _ _ => 0) 1
    ⟨⟨false, (0, 0)⟩, 0, 0, [], none, 0⟩ (le_refl 0) (le_refl 1)

/-- C9: `calc_uct` on a node whose visit counter is 0 permanently stores
`0.001` in the node's visit counter (the write `self.visits = 0.001`
happens before the score is computed and survives the call), so a
subsequent `backprop` makes the counter the non-integer `1.001`. -/
theorem calc_uct_mutates_visits (c : ℚ) (bonus : ℚ → ℚ → ℚ) (pv : ℚ)
    (n : NRec) (result : Option Bool) (h : n.visits = 0) :
    (calc_uct c bonus pv n).1.visits = 1/1000 ∧
    (backprop_step result (calc_uct c bonus pv n).1).visits = 1001/1000 ∧
    ¬∃ z : ℤ, (backprop_step result (calc_uct c bonus pv n).1).visits
        = (z : ℚ) := by
  have hfst : (calc_uct c bonus pv n).1.visits = 1/1000 := by
    unfold calc_uct
    simp only [h, if_pos rfl]
    by_cases hpv : pv < 1 <;> simp [hpv]
  refine ⟨hfst, ?_, ?_⟩
  · simp [backprop_step, hfst]
    norm_num
  · rintro ⟨z, hz⟩
    rw [backprop_step] at hz
    simp only [hfst] at hz
    have h1001 : (1001 : ℚ) = 1000 * (z : ℚ) := by linarith
    have hcast : (1001 : ℤ) = 1000 * z := by exact_mod_cast h1001
    omega

theorem calc_uct_mutates_visits_witness :
    (calc_uct 0 (fun _ _ => 0) 1
        ⟨⟨false, (0, 0)⟩, 0, 0, [], none, 0⟩).1.visits = 1/1000 ∧
    (backprop_step none (calc_uct 0 (fun _ _ => 0) 1
        ⟨⟨false, (0, 0)⟩, 0, 0, [], none, 0⟩).1).visits = 1001/1000 ∧
    ¬∃ z : ℤ, (backprop_step none (calc_uct 0 (fun _ _ => 0) 1
        ⟨⟨false, (0, 0)⟩, 0, 0, [], none, 0⟩).1).visits = (z : ℚ) :=
  calc_uct_mutates_visits 0 (fun _ _ => 0) 1
    ⟨⟨false, (0, 0)⟩, 0, 0, [], none, 0⟩ none rfl

/-- C6: `swap_root` makes the given node (with its parent back-reference
cleared) the tree's root, records the previous root's visit count in
`iterations`, and leaves the new root's visits, wins, children and
remaining untried moves — and the tree's configuration — unchanged. -/
theorem swap_root_spec (t : SearchTree) (n : PNode) :
    (swap_root t n).root = n.clearParent ∧
    (swap_root t n).root.hasParent = false ∧
    (swap_root t n).iterations = t.root.visits ∧
    (swap_root t n).root.visits = n.visits ∧
    (swap_root t n).root.wins = n.wins ∧
    (swap_root t n).root.children = n.children ∧
    (swap_root t n).root.possible_moves = n.possible_moves ∧
    (swap_root t n).root.played_move = n.played_move ∧
    (swap_root t n).constant = t.constant ∧
    (swap_root t n).calc_time = t.calc_time ∧
    (swap_root t n).first_move = t.first_move := by
  cases n with
  | mk hp v w pm pl ch =>
    refine ⟨rfl, rfl, rfl, rfl, rfl, rfl, rfl, rfl, rfl, rfl, rfl⟩

/-- C8 (counterexample): the sentinel does not map back — `CONVERT_MOVE`
has the key `'-1 -1' -> None`, but no key `None`, so converting the
internal no-move value back to notation is a `KeyError`. -/
theorem convert_move_no_none_key : dict_get PyVal.nonev = none := by
  decide

/-- C8 (amended): each of the 9 valid notation strings round-trips through
the internal single-bit move and back, each of the 9 single-bit moves
round-trips through its notation and back, and the sentinel `'-1 -1'` maps
to the internal no-move value — but only in that one direction. -/
theorem convert_move_roundtrip :
    (CONVERT_MOVE.all fun e =>
      match e with
      | (.str s, .intv m) =>
          (dict_get (.str s) == some (.intv m)) &&
          (dict_get (.intv m) == some (.str s))
      | (.intv m, .str s) =>
          (dict_get (.intv m) == some (.str s)) &&
          (dict_get (.str s) == some (.intv m))
      | _ => true) = true ∧
    dict_get (.str "-1 -1") = some PyVal.nonev := by
  refine ⟨by decide, by decide⟩

theorem backprop_chain_eq_map (result : Option Bool) :
    ∀ l : List NRec, backprop_chain result l = l.map (backprop_step result)
  | [] => rfl
  | n :: t => by
      rw [backprop_chain, List.map_cons, backprop_chain_eq_map result t]

theorem move_player (s : GameState) (m : ℕ) : (s.move m).player = !s.player :=
  (move_fields s m).2.2

/-- C3: `backprop` increments the visit counter of the node and of each of
its ancestors up to the root by exactly 1; a node's win counter is
incremented by exactly 1 iff the outcome's winning player equals the player
who made the move that created the node (for a node created by applying a
move at its parent's state, that mover is `!parent.gamestate.player`, the
side to move at the parent, which is exactly the `player` recorded in the
node's own state); no other node field changes.  The chain lists the node
first, then its ancestors up to the root. -/
theorem backprop_updates_chain (result : Option Bool) (chain : List NRec)
    (i : ℕ) (hi : i < chain.length)
    (hi2 : i < (backprop_chain result chain).length) :
    (backprop_chain result chain).length = chain.length ∧
    (backprop_chain result chain)[i].visits = chain[i].visits + 1 ∧
    (backprop_chain result chain)[i].wins
      = (if result = some chain[i].gamestate.player
         then chain[i].wins + 1 else chain[i].wins) ∧
    (backprop_chain result chain)[i].gamestate = chain[i].gamestate ∧
    (backprop_chain result chain)[i].possible_moves
      = chain[i].possible_moves ∧
    (backprop_chain result chain)[i].played_move = chain[i].played_move ∧
    (backprop_chain result chain)[i].uct = chain[i].uct ∧
    ∀ m : ℕ, ∀ hsucc : i + 1 < chain.length,
      chain[i].gamestate = chain[i + 1].gamestate.move m →
      (backprop_chain result chain)[i].wins
        = (if result = some (!chain[i + 1].gamestate.player)
           then chain[i].wins + 1 else chain[i].wins) := by
  have hmap := backprop_chain_eq_map result chain
  have hget : (backprop_chain result chain)[i]
      = backprop_step result chain[i] := by
    simp only [hmap, List.getElem_map]
  refine ⟨by simp [hmap], ?_, ?_, ?_, ?_, ?_, ?_, ?_⟩
  · rw [hget]
    rfl
  · rw [hget]
    rfl
  · rw [hget]
    rfl
  · rw [hget]
    rfl
  · rw [hget]
    rfl
  · rw [hget]
    rfl
  · intro m hsucc hlink
    rw [hget]
    have hpl : chain[i].gamestate.player = !chain[i + 1].gamestate.player := by
      rw [hlink, move_player]
    show (if result = some chain[i].gamestate.player
          then chain[i].wins + 1 else chain[i].wins) = _
    rw [hpl]

theorem backprop_updates_chain_witness :
    (backprop_chain (some true)
        [⟨⟨true, (0, 1)⟩, 0, 0, [], some 1, 0⟩,
         ⟨⟨false, (0, 0)⟩, 2, 1, [], none, 0⟩]).length
      = ([⟨⟨true, (0, 1)⟩, 0, 0, [], some 1, 0⟩,
          ⟨⟨false, (0, 0)⟩, 2, 1, [], none, 0⟩] : List NRec).length ∧
    (backprop_chain (some true)
        [⟨⟨true, (0, 1)⟩, 0, 0, [], some 1, 0⟩,
         ⟨⟨false, (0, 0)⟩, 2, 1, [], none, 0⟩])[0].visits
      = ([⟨⟨true, (0, 1)⟩, 0, 0, [], some 1, 0⟩,
          ⟨⟨false, (0, 0)⟩, 2, 1, [], none, 0⟩] : List NRec)[0].visits + 1 ∧
    (backprop_chain (some true)
        [⟨⟨true, (0, 1)⟩, 0, 0, [], some 1, 0⟩,
         ⟨⟨false, (0, 0)⟩, 2, 1, [], none, 0⟩])[0].wins
      = (if (some true : Option Bool)
            = some (([⟨⟨true, (0, 1)⟩, 0, 0, [], some 1, 0⟩,
                ⟨⟨false, (0, 0)⟩, 2, 1, [], none, 0⟩] :
                List NRec)[0].gamestate.player)
         then ([⟨⟨true, (0, 1)⟩, 0, 0, [], some 1, 0⟩,
             ⟨⟨false, (0, 0)⟩, 2, 1, [], none, 0⟩] :
             List NRec)[0].wins + 1
         else ([⟨⟨true, (0, 1)⟩, 0, 0, [], some 1, 0⟩,
             ⟨⟨false, (0, 0)⟩, 2, 1, [], none, 0⟩] :
             List NRec)[0].wins) ∧
    (backprop_chain (some true)
        [⟨⟨true, (0, 1)⟩, 0, 0, [], some 1, 0⟩,
         ⟨⟨false, (0, 0)⟩, 2, 1, [], none, 0⟩])[0].gamestate
      = ([⟨⟨true, (0, 1)⟩, 0, 0, [], some 1, 0⟩,
          ⟨⟨false, (0, 0)⟩, 2, 1, [], none, 0⟩] : List NRec)[0].gamestate ∧
    (backprop_chain (some true)
        [⟨⟨true, (0, 1)⟩, 0, 0, [], some 1, 0⟩,
         ⟨⟨false, (0, 0)⟩, 2, 1, [], none, 0⟩])[0].possible_moves
      = ([⟨⟨true, (0, 1)⟩, 0, 0, [], some 1, 0⟩,
          ⟨⟨false, (0, 0)⟩, 2, 1, [], none, 0⟩] :
          List NRec)[0].possible_moves ∧
    (backprop_chain (some true)
        [⟨⟨true, (0, 1)⟩, 0, 0, [], some 1, 0⟩,
         ⟨⟨false, (0, 0)⟩, 2, 1, [], none, 0⟩])[0].played_move
      = ([⟨⟨true, (0, 1)⟩, 0, 0, [], some 1, 0⟩,
          ⟨⟨false, (0, 0)⟩, 2, 1, [], none, 0⟩] :
          List NRec)[0].played_move ∧
    (backprop_chain (some true)
        [⟨⟨true, (0, 1)⟩, 0, 0, [], some 1, 0⟩,
         ⟨⟨false, (0, 0)⟩, 2, 1, [], none, 0⟩])[0].uct
      = ([⟨⟨true, (0, 1)⟩, 0, 0, [], some 1, 0⟩,
          ⟨⟨false, (0, 0)⟩, 2, 1, [], none, 0⟩] : List NRec)[0].uct ∧
    ∀ m : ℕ, ∀ hsucc : 0 + 1
        < ([⟨⟨true, (0, 1)⟩, 0, 0, [], some 1, 0⟩,
            ⟨⟨false, (0, 0)⟩, 2, 1, [], none, 0⟩] : List NRec).length,
      ([⟨⟨true, (0, 1)⟩, 0, 0, [], some 1, 0⟩,
        ⟨⟨false, (0, 0)⟩, 2, 1, [], none, 0⟩] : List NRec)[0].gamestate
        = ([⟨⟨true, (0, 1)⟩, 0, 0, [], some 1, 0⟩,
            ⟨⟨false, (0, 0)⟩, 2, 1, [], none, 0⟩] :
            List NRec)[0 + 1].gamestate.move m →
      (backprop_chain (some true)
          [⟨⟨true, (0, 1)⟩, 0, 0, [], some 1, 0⟩,
           ⟨⟨false, (0, 0)⟩, 2, 1, [], none, 0⟩])[0].wins
        = (if (some true : Option Bool)
              = some (!([⟨⟨true, (0, 1)⟩, 0, 0, [], some 1, 0⟩,
                  ⟨⟨false, (0, 0)⟩, 2, 1, [], none, 0⟩] :
                  List NRec)[0 + 1].gamestate.player)
           then ([⟨⟨true, (0, 1)⟩, 0, 0, [], some 1, 0⟩,
               ⟨⟨false, (0, 0)⟩, 2, 1, [], none, 0⟩] :
               List NRec)[0].wins + 1
           else ([⟨⟨true, (0, 1)⟩, 0, 0, [], some 1, 0⟩,
               ⟨⟨false, (0, 0)⟩, 2, 1, [], none, 0⟩] :
               List NRec)[0].wins) :=
  backprop_updates_chain (some true)
    [⟨⟨true, (0, 1)⟩, 0, 0, [], some 1, 0⟩,
     ⟨⟨false, (0, 0)⟩, 2, 1, [], none, 0⟩] 0
    (by decide) (by decide)

theorem pyfold_mem {α : Type} (key : α → ℚ) (cur : α) (l : List α) :
    pyfold key cur l ∈ cur :: l := by
  induction l generalizing cur with
  | nil => simp [pyfold]
  | cons y ys ih =>
    rw [pyfold]
    by_cases hk : key cur < key y
    · rw [if_pos hk]
      exact List.mem_cons_of_mem cur (ih y)
    · rw [if_neg hk]
      rcases List.mem_cons.mp (ih cur) with h | h
      · rw [List.mem_cons]
        left
        exact h
      · exact List.mem_cons_of_mem cur (List.mem_cons_of_mem y h)

theorem pyfold_map {α : Type} (u : α → α) (k1 k2 : α → ℚ)
    (l : List α) (cur : α)
    (hcur : k1 (u cur) = k2 cur) (hl : ∀ x ∈ l, k1 (u x) = k2 x) :
    pyfold k1 (u cur) (l.map u) = u (pyfold k2 cur l) := by
  induction l generalizing cur with
  | nil => rfl
  | cons y ys ih =>
    rw [List.map_cons, pyfold, pyfold]
    have hy : k1 (u y) = k2 y := hl y (by simp)
    rw [hcur, hy]
    by_cases h : k2 cur < k2 y
    · rw [if_pos h, if_pos h]
      exact ih y hy fun x hx => hl x (by simp [hx])
    · rw [if_neg h, if_neg h]
      exact ih cur hcur fun x hx => hl x (by simp [hx])

theorem calc_uct_zero_eq (bonus : ℚ → ℚ → ℚ) {rv : ℚ} {c : NRec}
    (hrv : 1 ≤ rv) (hv : 1 ≤ c.visits) :
    (calc_uct 0 bonus rv c).1 = { c with uct := calc_best c } := by
  have hv0 : ¬(c.visits = 0) := by
    intro h
    rw [h] at hv
    norm_num at hv
  have hrv0 : ¬(rv < 1) := not_lt.mpr hrv
  unfold calc_uct calc_best
  simp [hv0, hrv0]

/-- C5: for a root with `visits >= 1` whose children all have `visits >= 1`,
the child selected by the lists engine's `choose_best` — Python `max` over
the children after each child's `calc_uct(0)`, which caches
`wins/visits + 0 * sqrt(...)` — is the same child (same position, same
statistics; the cached `uct` score is the only field the two runs do not
share) as the one selected by the mutable engine's `best_child` — Python
`max` keyed on `calc_best() = wins/visits` — including the tie-break, since
Python's `max` keeps the first element attaining the maximum in both
engines. -/
theorem choose_best_agrees_with_best_child (bonus : ℚ → ℚ → ℚ) (rv : ℚ)
    (children : List NRec) (hrv : 1 ≤ rv)
    (hch : ∀ c ∈ children, 1 ≤ c.visits) :
    (choose_best_selected bonus rv children).map eraseUct
      = (best_child children).map eraseUct := by
  cases children with
  | nil => rfl
  | cons c cs =>
    have hu : ∀ x ∈ c :: cs,
        NRec.uct (calc_uct 0 bonus rv x).1 = calc_best x := by
      intro x hx
      rw [calc_uct_zero_eq bonus hrv (hch x hx)]
    have hfold := pyfold_map (fun x => (calc_uct 0 bonus rv x).1)
      NRec.uct calc_best cs c (hu c (by simp))
      (fun x hx => hu x (by simp [hx]))
    show (pymax NRec.uct (((c :: cs).map fun x => (calc_uct 0 bonus rv x).1))).map
          eraseUct
        = (pymax calc_best (c :: cs)).map eraseUct
    rw [List.map_cons]
    show some (eraseUct (pyfold NRec.uct ((calc_uct 0 bonus rv c).1)
          (cs.map fun x => (calc_uct 0 bonus rv x).1)))
        = some (eraseUct (pyfold calc_best c cs))
    rw [hfold]
    have hp : pyfold calc_best c cs ∈ c :: cs := pyfold_mem calc_best c cs
    show some (eraseUct (calc_uct 0 bonus rv (pyfold calc_best c cs)).1)
        = some (eraseUct (pyfold calc_best c cs))
    rw [calc_uct_zero_eq bonus hrv (hch _ hp)]
    simp [eraseUct]

theorem choose_best_agrees_with_best_child_witness :
    (choose_best_selected (fun _ _ => 0) 1
        [⟨⟨false, (0, 0)⟩, 1, 0, [], none, 0⟩,
         ⟨⟨false, (0, 0)⟩, 1, 1, [], none, 0⟩]).map eraseUct
      = (best_child
        [⟨⟨false, (0, 0)⟩, 1, 0, [], none, 0⟩,
         ⟨⟨false, (0, 0)⟩, 1, 1, [], none, 0⟩]).map eraseUct :=
  choose_best_agrees_with_best_child (fun _ _ => 0) 1
    [⟨⟨false, (0, 0)⟩, 1, 0, [], none, 0⟩,
     ⟨⟨false, (0, 0)⟩, 1, 1, [], none, 0⟩]
    (le_refl 1) (by intro c hc; fin_cases hc <;> norm_num)

theorem disjoint_after_or {b1 b2 k : ℕ}
    (hdisj : b1 &&& b2 = 0) (h1 : b1.testBit k = false) :
    b1 &&& (b2 ||| 2 ^ k) = 0 := by
  rw [land_eq_zero_iff] at hdisj ⊢
  rintro i ⟨hx, hy⟩
  rw [Nat.testBit_or, Nat.testBit_two_pow] at hy
  rcases Bool.or_eq_true_iff.mp hy with hb | hd
  · exact hdisj i ⟨hx, hb⟩
  · have hik : k = i := of_decide_eq_true hd
    subst hik
    rw [h1] at hx
    exact Bool.false_ne_true hx

theorem disjoint_after_or' {b1 b2 k : ℕ}
    (hdisj : b1 &&& b2 = 0) (h2 : b2.testBit k = false) :
    (b1 ||| 2 ^ k) &&& b2 = 0 := by
  rw [land_eq_zero_iff] at hdisj ⊢
  rintro i ⟨hx, hy⟩
  rw [Nat.testBit_or, Nat.testBit_two_pow] at hx
  rcases Bool.or_eq_true_iff.mp hx with hb | hd
  · exact hdisj i ⟨hb, hy⟩
  · have hik : k = i := of_decide_eq_true hd
    subst hik
    rw [h2] at hy
    exact Bool.false_ne_true hy

theorem land_pow_eq_zero {x k : ℕ} (h : x.testBit k = false) :
    x &&& 2 ^ k = 0 := by
  rw [land_eq_zero_iff]
  rintro i ⟨hx, hpow⟩
  rw [Nat.testBit_two_pow] at hpow
  have hik : k = i := of_decide_eq_true hpow
  subst hik
  rw [h] at hx
  exact Bool.false_ne_true hx

theorem or_pow_self {x k : ℕ} (h : x.testBit k = true) : x ||| 2 ^ k = x := by
  apply Nat.eq_of_testBit_eq
  intro i
  rw [Nat.testBit_or, Nat.testBit_two_pow]
  by_cases hik : k = i
  · subst hik
    simp [h]
  · simp [hik]

theorem ne_zero_of_testBit {x k : ℕ} (h : x.testBit k = true) : x ≠ 0 := by
  intro h0
  rw [h0, Nat.zero_testBit] at h
  exact Bool.false_ne_true h

/-- C7: applying an available move to a state with disjoint occupancy
fields yields a state with disjoint occupancy fields, in which the mover's
field is the old one with exactly the move's bit added (the bit was not
previously set), the other player's field is unchanged, and the turn is
flipped (`player` records the last mover, so the mover's field is indexed
by `!s.player` and the resulting `player` is `!s.player`). -/
theorem move_preserves_invariants (s : GameState) (m : ℕ)
    (hdisj : s.board.1 &&& s.board.2 = 0)
    (hm : m ∈ s.get_available_moves) :
    (s.move m).board.1 &&& (s.move m).board.2 = 0 ∧
    boardGet (s.move m).board (!s.player)
      = boardGet s.board (!s.player) ||| m ∧
    boardGet s.board (!s.player) &&& m = 0 ∧
    boardGet (s.move m).board s.player = boardGet s.board s.player ∧
    (s.move m).player = !s.player := by
  obtain ⟨hpm, hland⟩ := mem_available_moves.mp hm
  obtain ⟨k, hk, rfl⟩ := possible_moves_shape m hpm
  have htb := pow_land_eq_self.1 hland
  rw [avail_testBit s hk] at htb
  have hb1 : s.board.1.testBit k = false := by
    cases h1 : s.board.1.testBit k
    · rfl
    · rw [h1] at htb
      simp at htb
  have hb2 : s.board.2.testBit k = false := by
    cases h2 : s.board.2.testBit k
    · rfl
    · rw [h2] at htb
      simp at htb
  refine ⟨?_, (move_fields s _).1, ?_, (move_fields s _).2.1,
    (move_fields s _).2.2⟩
  · cases hp : s.player
    · have hbd : (s.move (2 ^ k)).board = (s.board.1, s.board.2 ||| 2 ^ k) := by
        simp [GameState.move, hp]
      rw [hbd]
      exact disjoint_after_or hdisj hb1
    · have hbd : (s.move (2 ^ k)).board = (s.board.1 ||| 2 ^ k, s.board.2) := by
        simp [GameState.move, hp]
      rw [hbd]
      exact disjoint_after_or' hdisj hb2
  · cases hp : s.player
    · show boardGet s.board true &&& 2 ^ k = 0
      exact land_pow_eq_zero hb2
    · show boardGet s.board false &&& 2 ^ k = 0
      exact land_pow_eq_zero hb1

theorem move_preserves_invariants_witness :
    ((0b100000000 : ℕ)
        ∈ (GameState.mk false (0, 0)).get_available_moves) ∧
    ((GameState.mk false (0, 0)).move 0b100000000).board.1 &&&
      ((GameState.mk false (0, 0)).move 0b100000000).board.2 = 0 ∧
    boardGet ((GameState.mk false (0, 0)).move 0b100000000).board
        (!(GameState.mk false (0, 0)).player)
      = boardGet (GameState.mk false (0, 0)).board
          (!(GameState.mk false (0, 0)).player) ||| 0b100000000 ∧
    boardGet (GameState.mk false (0, 0)).board
        (!(GameState.mk false (0, 0)).player) &&& 0b100000000 = 0 ∧
    boardGet ((GameState.mk false (0, 0)).move 0b100000000).board
        (GameState.mk false (0, 0)).player
      = boardGet (GameState.mk false (0, 0)).board
          (GameState.mk false (0, 0)).player ∧
    ((GameState.mk false (0, 0)).move 0b100000000).player
      = !(GameState.mk false (0, 0)).player :=
  ⟨by decide,
   move_preserves_invariants (GameState.mk false (0, 0)) 0b100000000
     (by decide) (by decide)⟩

/-- C4 (counterexample): `GameState.move` in both engines accepts a move on
an already-occupied cell without any error: on a board where player index 0
owns cell `0b100000000`, applying that same move for the other player
returns an ordinary successor state — one in which both players own the
cell — instead of raising `IllegalMoveError` (no such check or exception
exists in the code); the mutable engine's move likewise returns its
terminal flag normally. -/
theorem move_accepts_unavailable_move :
    ((0b100000000 : ℕ)
        ∉ (GameState.mk false (0b100000000, 0)).get_available_moves) ∧
    (GameState.mk false (0b100000000, 0)).move 0b100000000
      = ⟨true, (0b100000000, 0b100000000)⟩ ∧
    ((GameState.mk false (0b100000000, 0)).move 0b100000000).board.1 &&&
      ((GameState.mk false (0b100000000, 0)).move 0b100000000).board.2
        ≠ 0 ∧
    ((GameState.mk false (0b100000000, 0)).mmove 0b100000000).1
      = ⟨true, (0b100000000, 0b100000000)⟩ ∧
    ((GameState.mk false (0b100000000, 0)).mmove 0b100000000).2
      = Except.ok false := by
  refine ⟨by decide, by decide, by decide, by decide, by rfl⟩

theorem win_state_move_some {m : ℕ} (hm : m ∈ POSSIBLE_MOVES) :
    ∃ masks, WIN_STATE_MOVE m = some masks := by
  fin_cases hm <;> exact ⟨_, rfl⟩

theorem win_state_move_none {m : ℕ} (hm : m ∉ POSSIBLE_MOVES) :
    WIN_STATE_MOVE m = none := by
  unfold WIN_STATE_MOVE
  split_ifs <;> first
    | rfl
    | (subst_vars; exact absurd (by decide) hm)

theorem mmove_ok {s : GameState} {m : ℕ} (hm : m ∈ POSSIBLE_MOVES) :
    ∃ t : Bool, (s.mmove m).2 = Except.ok t := by
  obtain ⟨masks, hmask⟩ := win_state_move_some hm
  have hshape : (s.mmove m).2
      = ((s.mmove m).1.won_move m).map
          (fun w => w || (s.mmove m).1.get_available == 0) := rfl
  rw [hshape]
  unfold GameState.won_move
  rw [hmask]
  exact ⟨_, rfl⟩

theorem mmove_keyerror {s : GameState} {m : ℕ} (hm : m ∉ POSSIBLE_MOVES) :
    (s.mmove m).2 = Except.error PyError.keyError := by
  have hshape : (s.mmove m).2
      = ((s.mmove m).1.won_move m).map
          (fun w => w || (s.mmove m).1.get_available == 0) := rfl
  rw [hshape]
  unfold GameState.won_move
  rw [win_state_move_none hm]
  rfl

/-- C4 (amended): no availability check exists and `IllegalMoveError` does
not exist anywhere in the code.  The lists engine's `GameState.move` never
raises: any move — occupied cell or out-of-range value — is silently
accepted, or-ing the bit into the mover's field and flipping the turn.  The
mutable engine's `GameState.move` makes the same state change; it silently
accepts an unavailable move that is one of the 9 cell masks (an occupied
cell), returning its terminal flag normally, while for a move outside the
9 cell masks it raises `KeyError` — not `IllegalMoveError` — from the
`WIN_STATE_MOVE` subscript in `_won`, and only after the board has already
been mutated.  An occupied-cell move leaves the board unchanged (the mover
already owned the cell) or makes the cell owned by both players.
`set_root_to_move` builds on these unchecked moves and raises
`IllegalMoveError` in neither engine. -/
theorem move_unchecked_effect (s : GameState) (m : ℕ)
    (hna : m ∉ s.get_available_moves) :
    (s.move m).player = !s.player ∧
    (s.mmove m).1 = s.move m ∧
    (m ∈ POSSIBLE_MOVES →
      (∃ t : Bool, (s.mmove m).2 = Except.ok t) ∧
      ((s.move m).board.1 &&& (s.move m).board.2 ≠ 0 ∨
        (s.move m).board = s.board)) ∧
    (m ∉ POSSIBLE_MOVES →
      (s.mmove m).2 = Except.error PyError.keyError) := by
  refine ⟨(move_fields s _).2.2, mmove_fst_eq_move s _, ?_,
    fun hnp => mmove_keyerror hnp⟩
  intro hpm
  refine ⟨mmove_ok hpm, ?_⟩
  obtain ⟨k, hk, rfl⟩ := possible_moves_shape m hpm
  have hocc : s.board.1.testBit k = true ∨ s.board.2.testBit k = true := by
    rw [mem_available_moves_iff hk] at hna
    by_cases h1 : s.board.1.testBit k = true
    · exact Or.inl h1
    · right
      cases h2 : s.board.2.testBit k
      · exact absurd ⟨Bool.eq_false_iff.mpr h1 ▸ rfl, h2⟩ hna
      · rfl
  cases hp : s.player
  · have hbd : (s.move (2 ^ k)).board = (s.board.1, s.board.2 ||| 2 ^ k) := by
      simp [GameState.move, hp]
    cases h2 : s.board.2.testBit k
    · left
      rw [hbd]
      have h1 : s.board.1.testBit k = true := by
        rcases hocc with h | h
        · exact h
        · rw [h2] at h
          exact absurd h (by simp)
      apply ne_zero_of_testBit (k := k)
      rw [Nat.testBit_and, h1, Nat.testBit_or, Nat.testBit_two_pow]
      simp
    · right
      rw [hbd, or_pow_self h2]
  · have hbd : (s.move (2 ^ k)).board = (s.board.1 ||| 2 ^ k, s.board.2) := by
      simp [GameState.move, hp]
    cases h1 : s.board.1.testBit k
    · left
      rw [hbd]
      have h2 : s.board.2.testBit k = true := by
        rcases hocc with h | h
        · rw [h1] at h
          exact absurd h (by simp)
        · exact h
      apply ne_zero_of_testBit (k := k)
      rw [Nat.testBit_and, h2, Nat.testBit_or, Nat.testBit_two_pow]
      simp
    · right
      rw [hbd, or_pow_self h1]

theorem move_unchecked_effect_witness :
    ((GameState.mk false (0b100000000, 0)).move 0b100000000).player
      = !(GameState.mk false (0b100000000, 0)).player ∧
    ((GameState.mk false (0b100000000, 0)).mmove 0b100000000).1
      = (GameState.mk false (0b100000000, 0)).move 0b100000000 ∧
    ((0b100000000 : ℕ) ∈ POSSIBLE_MOVES →
      (∃ t : Bool,
        ((GameState.mk false (0b100000000, 0)).mmove 0b100000000).2
          = Except.ok t) ∧
      (((GameState.mk false (0b100000000, 0)).move 0b100000000).board.1 &&&
          ((GameState.mk false (0b100000000, 0)).move 0b100000000).board.2
            ≠ 0 ∨
        ((GameState.mk false (0b100000000, 0)).move 0b100000000).board
          = (GameState.mk false (0b100000000, 0)).board)) ∧
    ((0b100000000 : ℕ) ∉ POSSIBLE_MOVES →
      ((GameState.mk false (0b100000000, 0)).mmove 0b100000000).2
        = Except.error PyError.keyError) :=
  move_unchecked_effect (GameState.mk false (0b100000000, 0)) 0b100000000
    (by decide)

theorem length_filter_lt {p q : ℕ → Bool} :
    ∀ l : List ℕ, l.Nodup → ∀ m ∈ l, p m = true → q m = false →
      (∀ x ∈ l, x ≠ m → q x = p x) →
      (l.filter q).length < (l.filter p).length := by
  intro l
  induction l with
  | nil =>
    intro _ m hm
    exact absurd hm (List.not_mem_nil m)
  | cons a t ih =>
    intro hnd m hm hpm hqm hag
    rcases List.mem_cons.mp hm with rfl | hmt
    · have hqt_eq : t.filter q = t.filter p := by
        apply List.filter_congr
        intro x hx
        exact hag x (List.mem_cons_of_mem _ hx)
          (fun hxm => (List.nodup_cons.mp hnd).1 (hxm ▸ hx))
      rw [List.filter_cons, List.filter_cons, hqm, hpm, hqt_eq]
      simp
    · have ha_ne : a ≠ m := fun h => (List.nodup_cons.mp hnd).1 (h ▸ hmt)
      have hqa : q a = p a := hag a (List.mem_cons_self a t) ha_ne
      have hlt := ih (List.nodup_cons.mp hnd).2 m hmt hpm hqm
        fun x hx hxm => hag x (List.mem_cons_of_mem _ hx) hxm
      rw [List.filter_cons, List.filter_cons, hqa]
      cases p a
      · simpa using hlt
      · simpa using Nat.succ_lt_succ hlt

theorem move_or_fields (s : GameState) (m : ℕ) :
    (s.move m).board.1 ||| (s.move m).board.2
      = (s.board.1 ||| s.board.2) ||| m := by
  apply Nat.eq_of_testBit_eq
  intro i
  cases hp : s.player <;>
    simp [GameState.move, hp, Nat.testBit_or] <;>
    cases s.board.1.testBit i <;> cases s.board.2.testBit i <;>
    cases m.testBit i <;> rfl

theorem move_avail_testBit (s : GameState) {k j : ℕ} (hj : j < 9) :
    ((s.move (2 ^ k)).get_available).testBit j
      = !((s.board.1.testBit j || s.board.2.testBit j) || decide (k = j)) := by
  rw [avail_testBit _ hj]
  have h := congrArg (fun x => x.testBit j) (move_or_fields s (2 ^ k))
  simp only [Nat.testBit_or, Nat.testBit_two_pow] at h
  rw [← Bool.not_inj_iff]
  simp only [Bool.not_not]
  exact h

theorem possible_moves_nodup : POSSIBLE_MOVES.Nodup := by decide

theorem available_moves_shrink {s : GameState} {m : ℕ}
    (hm : m ∈ s.get_available_moves) :
    ((s.move m).get_available_moves).length
      < s.get_available_moves.length := by
  obtain ⟨hpm, hland⟩ := mem_available_moves.mp hm
  obtain ⟨k, hk, rfl⟩ := possible_moves_shape _ hpm
  apply length_filter_lt POSSIBLE_MOVES possible_moves_nodup (2 ^ k) hpm
  · simp [hland]
  · rw [pow_land_beq, move_avail_testBit s hk]
    simp
  · intro x hx hxne
    obtain ⟨j, hj, rfl⟩ := possible_moves_shape x hx
    have hjk : ¬(k = j) := by
      intro h
      exact hxne (by rw [h])
    rw [pow_land_beq, pow_land_beq, move_avail_testBit s hj,
      avail_testBit s hj]
    simp [hjk]

theorem avail_moves_nonempty_of_bits {s : GameState}
    (h1 : s.board.1 < 512) (h2 : s.board.2 < 512)
    (havail : s.get_available ≠ 0) : s.get_available_moves ≠ [] := by
  obtain ⟨i, hbit⟩ := Nat.ne_zero_implies_bit_true havail
  have h512 : (512 : ℕ) = 2 ^ 9 := by norm_num
  have hlt : s.get_available < 512 := by
    rw [h512]
    exact Nat.xor_lt_two_pow
      (Nat.or_lt_two_pow (h512 ▸ h1) (h512 ▸ h2)) (by norm_num)
  have hi9 : i < 9 := by
    by_contra hge
    have hpow : s.get_available < 2 ^ i := lt_of_lt_of_le (h512 ▸ hlt)
      (Nat.pow_le_pow_right (by norm_num) (not_lt.mp hge))
    rw [Nat.testBit_lt_two_pow hpow] at hbit
    exact Bool.false_ne_true hbit
  exact List.ne_nil_of_mem (mem_available_moves.mpr
    ⟨two_pow_mem_possible hi9, pow_land_eq_self.2 hbit⟩)

theorem move_board_lt {s : GameState} {m : ℕ} (h1 : s.board.1 < 512)
    (h2 : s.board.2 < 512) (hm : m < 512) :
    (s.move m).board.1 < 512 ∧ (s.move m).board.2 < 512 := by
  have h512 : (512 : ℕ) = 2 ^ 9 := by norm_num
  cases hp : s.player <;> simp [GameState.move, hp] <;>
    constructor <;>
    first
      | assumption
      | (rw [h512]
         exact Nat.or_lt_two_pow (h512 ▸ (by assumption)) (h512 ▸ hm))

theorem mem_possible_lt {m : ℕ} (hm : m ∈ POSSIBLE_MOVES) : m < 512 := by
  fin_cases hm <;> norm_num

theorem getD_mod_mem {l : List ℕ} (h : l ≠ []) (idx : ℕ) :
    l.getD (idx % l.length) 0 ∈ l := by
  have hlen : 0 < l.length := List.length_pos.mpr h
  have hidx : idx % l.length < l.length := Nat.mod_lt _ hlen
  rw [List.getD_eq_getElem l 0 hidx]
  exact List.getElem_mem hidx

theorem play_out_iter_ok (pick : List ℕ → ℕ) :
    ∀ fuel (s : GameState), s.board.1 < 512 → s.board.2 < 512 →
      s.get_available_moves ≠ [] → s.get_available_moves.length ≤ fuel →
      ∃ r : Option Bool, play_out_iter pick fuel s = some (Except.ok r) := by
  intro fuel
  induction fuel with
  | zero =>
    intro s _ _ hne hlen
    exact absurd (List.eq_nil_of_length_eq_zero (Nat.le_zero.mp hlen)) hne
  | succ fuel ih =>
    intro s h1 h2 hne hlen
    rcases hava : s.get_available_moves with _ | ⟨m, rest⟩
    · exact absurd hava hne
    · have hchosen : (m :: rest).getD
          (pick (m :: rest) % (m :: rest).length) 0 ∈ m :: rest :=
        getD_mod_mem (List.cons_ne_nil m rest) (pick (m :: rest))
      set c := (m :: rest).getD (pick (m :: rest) % (m :: rest).length) 0
        with hc
      have hcm : c ∈ s.get_available_moves := by
        rw [hava]
        exact hchosen
      have hstep : (s.sim_move c).1 = s.move c := sim_move_fst_eq_move s c
      by_cases hterm : (s.sim_move c).2 = true
      · refine ⟨if (s.sim_move c).1.is_won then some (s.sim_move c).1.player
          else none, ?_⟩
        rw [play_out_iter, hava]
        show (if (s.sim_move c).2 = true then
            some (Except.ok (if (s.sim_move c).1.is_won = true
              then some (s.sim_move c).1.player else none))
          else play_out_iter pick fuel (s.sim_move c).1)
          = some (Except.ok (if (s.sim_move c).1.is_won = true
              then some (s.sim_move c).1.player else none))
        rw [if_pos hterm]
      · have hterm2 : ((s.move c).is_terminated) = false := by
          rw [← hstep]
          show (s.sim_move c).1.is_terminated = false
          have hsnd : (s.sim_move c).2 = (s.sim_move c).1.is_terminated := rfl
          rw [← hsnd]
          exact Bool.eq_false_iff.mpr hterm
        have hterm3 : (s.move c).get_available ≠ 0 := by
          unfold GameState.is_terminated at hterm2
          intro h0
          rw [h0] at hterm2
          simp at hterm2
        obtain ⟨hcp, -⟩ := mem_available_moves.mp hcm
        have hmlt : c < 512 := mem_possible_lt hcp
        obtain ⟨hb1, hb2⟩ := move_board_lt h1 h2 hmlt
        have hne2 : (s.move c).get_available_moves ≠ [] :=
          avail_moves_nonempty_of_bits hb1 hb2 hterm3
        have hlen2 : (s.move c).get_available_moves.length ≤ fuel :=
          Nat.le_of_lt_succ (lt_of_lt_of_le (available_moves_shrink hcm) hlen)
        obtain ⟨r, hr⟩ := ih (s.move c) hb1 hb2 hne2 hlen2
        refine ⟨r, ?_⟩
        rw [play_out_iter, hava]
        show (if (s.sim_move c).2 = true then
            some (Except.ok (if (s.sim_move c).1.is_won = true
              then some (s.sim_move c).1.player else none))
          else play_out_iter pick fuel (s.sim_move c).1)
          = some (Except.ok r)
        rw [if_neg hterm, hstep]
        exact hr

theorem sim_loop_ok (pick : List ℕ → ℕ) :
    ∀ fuel (s : GameState), s.board.1 < 512 → s.board.2 < 512 →
      1 ≤ fuel → s.get_available_moves.length ≤ fuel →
      ∃ final, sim_loop pick fuel s = some (Except.ok final) := by
  intro fuel
  induction fuel with
  | zero =>
    intro s _ _ h1f
    exact absurd h1f (by norm_num)
  | succ fuel ih =>
    intro s h1 h2 _ hlen
    rcases hava : s.get_available_moves with _ | ⟨m, rest⟩
    · refine ⟨s, ?_⟩
      rw [sim_loop, hava]
    · have hchosen : (m :: rest).getD
          (pick (m :: rest) % (m :: rest).length) 0 ∈ m :: rest :=
        getD_mod_mem (List.cons_ne_nil m rest) (pick (m :: rest))
      set c := (m :: rest).getD (pick (m :: rest) % (m :: rest).length) 0
        with hc
      have hcm : c ∈ s.get_available_moves := by
        rw [hava]
        exact hchosen
      have hstep : (s.mmove c).1 = s.move c := mmove_fst_eq_move s c
      obtain ⟨hcp, -⟩ := mem_available_moves.mp hcm
      obtain ⟨masks, hmask⟩ := win_state_move_some hcp
      obtain ⟨t, ht, htimp⟩ : ∃ t : Bool, (s.mmove c).2 = Except.ok t ∧
          ((s.mmove c).1.get_available = 0 → t = true) := by
        have hshape : (s.mmove c).2
            = ((s.mmove c).1.won_move c).map
                (fun w => w || (s.mmove c).1.get_available == 0) := rfl
        refine ⟨(masks.any fun state =>
            boardGet (s.mmove c).1.board (s.mmove c).1.player &&& state
              == state) || ((s.mmove c).1.get_available == 0), ?_, ?_⟩
        · rw [hshape]
          unfold GameState.won_move
          rw [hmask]
          rfl
        · intro h0
          rw [h0]
          simp
      by_cases hterm : t = true
      · refine ⟨(s.mmove c).1, ?_⟩
        rw [sim_loop, hava]
        show (match (s.mmove c).2 with
          | Except.error e => some (Except.error e)
          | Except.ok term =>
              if term = true then some (Except.ok (s.mmove c).1)
              else sim_loop pick fuel (s.mmove c).1)
          = some (Except.ok (s.mmove c).1)
        rw [ht]
        show (if t = true then some (Except.ok (s.mmove c).1)
          else sim_loop pick fuel (s.mmove c).1)
          = some (Except.ok (s.mmove c).1)
        rw [if_pos hterm]
      · have hterm2 : (s.move c).get_available ≠ 0 := by
          intro h0
          apply hterm
          apply htimp
          rw [hstep]
          exact h0
        have hmlt : c < 512 := mem_possible_lt hcp
        obtain ⟨hb1, hb2⟩ := move_board_lt h1 h2 hmlt
        have hne2 : (s.move c).get_available_moves ≠ [] :=
          avail_moves_nonempty_of_bits hb1 hb2 hterm2
        have hlen2 : (s.move c).get_available_moves.length ≤ fuel :=
          Nat.le_of_lt_succ (lt_of_lt_of_le (available_moves_shrink hcm) hlen)
        have h1f : 1 ≤ fuel := by
          have := List.length_pos.mpr hne2
          omega
        obtain ⟨final, hfinal⟩ := ih (s.move c) hb1 hb2 h1f hlen2
        refine ⟨final, ?_⟩
        rw [sim_loop, hava]
        show (match (s.mmove c).2 with
          | Except.error e => some (Except.error e)
          | Except.ok term =>
              if term = true then some (Except.ok (s.mmove c).1)
              else sim_loop pick fuel (s.mmove c).1)
          = some (Except.ok final)
        rw [ht]
        show (if t = true then some (Except.ok (s.mmove c).1)
          else sim_loop pick fuel (s.mmove c).1)
          = some (Except.ok final)
        rw [if_neg hterm, hstep]
        exact hfinal

/-- C10: from any in-range board state with at least one available move,
the lists engine's play_out loop terminates within 9 iterations (fuel 9
always suffices) and returns a result — each applied move strictly shrinks
the available-moves list, whose length is at most 9.  The at-least-one-move
precondition is needed because play_out calls `random.choice` on the
available-moves list before any termination check (an empty list raises
`IndexError`).  The mutable engine's simulate loop, which checks emptiness
before choosing, likewise terminates within 9 iterations and returns a
result. -/
theorem play_out_terminates_within_nine (pick : List ℕ → ℕ) (s : GameState)
    (h1 : s.board.1 < 512) (h2 : s.board.2 < 512)
    (hne : s.get_available_moves ≠ []) :
    (∃ r : Option Bool, play_out_iter pick 9 s = some (Except.ok r)) ∧
    (∃ out : Option Bool,
      simulate_outcome pick 9 s = some (Except.ok out)) := by
  have hlen : s.get_available_moves.length ≤ 9 := by
    unfold GameState.get_available_moves
    exact le_trans (List.length_filter_le _ _) (by decide)
  refine ⟨play_out_iter_ok pick 9 s h1 h2 hne hlen, ?_⟩
  obtain ⟨final, hfinal⟩ := sim_loop_ok pick 9 s h1 h2 (by norm_num) hlen
  refine ⟨if final.get_available != 0 then some final.player else none, ?_⟩
  unfold simulate_outcome
  rw [hfinal]
  rfl

theorem play_out_terminates_within_nine_witness :
    (∃ r : Option Bool, play_out_iter (fun _ => 0) 9 ⟨false, (0, 0)⟩
        = some (Except.ok r)) ∧
    (∃ out : Option Bool, simulate_outcome (fun _ => 0) 9 ⟨false, (0, 0)⟩
        = some (Except.ok out)) :=
  play_out_terminates_within_nine (fun _ => 0) ⟨false, (0, 0)⟩
    (by norm_num) (by norm_num) (by decide)

end MCTS
